import Mathlib

/-!
Verification of the lenient streaming JSON tokenizer in src/json.rs.

The Rust code is shallowly embedded: the input buffer is a `List Char`,
byte offsets are `Nat`, and Rust `str` slicing (`&source[a..b]`), which
panics when an index is out of bounds or not on a character boundary, is
modelled by `strSlice`, returning `none` exactly in the panic cases.
The reader state (`JsonTextReader`) carries the source, the continuation
stack, the remaining `CharIndices` stream and the one-slot pushback, just
like the Rust struct.  The `loop`s of the Rust code are embedded as
structurally recursive functions over an explicit fuel parameter; fuel is
always instantiated with more than the number of remaining characters
(each loop iteration consumes at least one character), and running out of
fuel is a distinguished outcome (`RunError.outOfFuel`) that is never
conflated with a defined result.  A Rust panic is the distinguished
outcome `RunError.slicePanic`.
-/

deriving instance DecidableEq for Except

/-- Lexical errors of the tokenizer (enum `SyntaxError` in src/json.rs). -/
inductive SyntaxError where
  | UnclosedComment
  | MissingValue
  | UnterminatedString
  | UnterminatedArray
  | UnterminatedObject
  | InvalidMemberValueDelimiter
  deriving DecidableEq, Repr

/-- Token kinds (enum `JsonTokenKind` in src/json.rs). -/
inductive JsonTokenKind where
  | Null
  | True
  | False
  | Number
  | String
  | ArrayStart
  | ArrayEnd
  | ObjectStart
  | ObjectEnd
  | ObjectMember
  deriving DecidableEq, Repr

/-- A token: a kind together with the exact source span (struct `JsonToken`). -/
structure JsonToken where
  kind : JsonTokenKind
  text : List Char
  deriving DecidableEq, Repr

/-- The pairs yielded by `str::char_indices`: byte offset and character. -/
abbrev IdxChar := Nat × Char

/-- The continuation states (enum `ReaderState` in src/json.rs). -/
inductive ReaderState where
  | Parse
  | ParseArrayFirst
  | ParseArrayNext
  | ParseObjectMemberName
  | ParseObjectMemberValue
  | ParseObjectMemberNext
  deriving DecidableEq, Repr

/-- Abnormal outcomes of the embedded code: `slicePanic` models a Rust
panic from an out-of-bounds or non-boundary string slice; `outOfFuel`
marks insufficient recursion fuel (never reached when fuel exceeds the
remaining input, see the fuel choices below). -/
inductive RunError where
  | slicePanic
  | outOfFuel
  deriving DecidableEq, Repr

/-- The reader (struct `JsonTextReader` in src/json.rs): borrowed source,
continuation stack, remaining char-indices iterator, one-slot pushback. -/
structure JsonTextReader where
  source : List Char
  stateStack : List ReaderState
  idxChars : List IdxChar
  next : Option IdxChar
  deriving DecidableEq, Repr

/-- Model of `str::char_indices`: (byte offset, char) pairs, offsets
advancing by the UTF-8 size of each character. -/
def charIndicesAux : Nat → List Char → List IdxChar
  | _, [] => []
  | i, c :: cs => (i, c) :: charIndicesAux (i + c.utf8Size) cs

def charIndices (s : List Char) : List IdxChar := charIndicesAux 0 s

/-- Drop the first `n` bytes of a character list; `none` when `n` is out
of range or not on a character boundary (a Rust slice panic). -/
def dropToBoundary : List Char → Nat → Option (List Char)
  | s, 0 => some s
  | [], _ + 1 => none
  | c :: cs, n + 1 =>
    if c.utf8Size ≤ n + 1 then dropToBoundary cs (n + 1 - c.utf8Size) else none

/-- Take the first `n` bytes of a character list; `none` when `n` is out
of range or not on a character boundary (a Rust slice panic). -/
def takeToBoundary : List Char → Nat → Option (List Char)
  | _, 0 => some []
  | [], _ + 1 => none
  | c :: cs, n + 1 =>
    if c.utf8Size ≤ n + 1 then (takeToBoundary cs (n + 1 - c.utf8Size)).map (c :: ·) else none

/-- Model of the Rust slice `&source[a..b]`: the characters whose bytes
lie in `[a, b)`, or `none` exactly when Rust would panic (indices out of
order, out of bounds, or not on character boundaries). -/
def strSlice (s : List Char) (a b : Nat) : Option (List Char) :=
  if a ≤ b then (dropToBoundary s a).bind (fun tl => takeToBoundary tl (b - a)) else none

/-- The Unicode White_Space code points, as used by Rust
`char::is_whitespace` (and hence `str::trim_end`). -/
def isRustWhitespace (c : Char) : Bool :=
  [0x09, 0x0A, 0x0B, 0x0C, 0x0D, 0x20, 0x85, 0xA0, 0x1680,
   0x2000, 0x2001, 0x2002, 0x2003, 0x2004, 0x2005, 0x2006, 0x2007,
   0x2008, 0x2009, 0x200A, 0x2028, 0x2029, 0x202F, 0x205F, 0x3000].contains c.toNat

/-- Model of Rust `str::trim_end`: remove trailing whitespace. -/
def trimEnd (s : List Char) : List Char :=
  (s.reverse.dropWhile isRustWhitespace).reverse

/-- Helper for `f64FromStrOk`: an optional exponent part
(`e`/`E`, optional sign, one or more digits) ending the string. -/
def expMarkOk : List Char → Bool
  | [] => true
  | e :: rest =>
    if e = 'e' ∨ e = 'E' then
      let rest2 := match rest with
        | c :: r => if c = '+' ∨ c = '-' then r else rest
        | [] => rest
      match rest2.span Char.isDigit with
      | (ds, []) => !ds.isEmpty
      | _ => false
    else false

/-- Helper for `f64FromStrOk`: a decimal mantissa
(`Digit+ | Digit+ '.' Digit* | Digit* '.' Digit+ | Digit+ '.'`)
followed by an optional exponent. -/
def mantissaOk (t : List Char) : Bool :=
  match t.span Char.isDigit with
  | (ds, []) => !ds.isEmpty
  | (ds, '.' :: rest2) =>
    match rest2.span Char.isDigit with
    | (ds2, rest3) => (!ds.isEmpty || !ds2.isEmpty) && expMarkOk rest3
  | (ds, rest) => !ds.isEmpty && expMarkOk rest

/-- Model of the acceptance condition of `str::parse::<f64>().is_ok()`
(the only use the Rust code makes of the parse), per the documented
grammar of `f64::from_str`: optional sign, then `inf`, `infinity` or
`nan` (case-insensitive) or a decimal mantissa with optional exponent.
Out-of-range values parse successfully in Rust (yielding infinity), so
acceptance is purely grammatical. -/
def f64FromStrOk (s : List Char) : Bool :=
  let t := match s with
    | c :: rest => if c = '+' ∨ c = '-' then rest else s
    | [] => s
  let lower := t.map Char.toLower
  if lower = "inf".toList ∨ lower = "infinity".toList ∨ lower = "nan".toList then true
  else mantissaOk t

/-- The reserved delimiter characters of the unquoted-scalar scan: the
Rust string literal is spelled comma, colon, right bracket, right brace,
slash, backslash, double quote, left bracket, left brace, semicolon,
equals, hash. -/
def reservedChars : List Char :=
  [',', ':', ']', '\x7d', '/', '\\', '"', '[', '\x7b', ';', '=', '#']

/-- The continuation condition of the unquoted-scalar scan loop in
`JsonTextReader::parse`: the character is `>= ' '` and is not one of the
reserved delimiters (`"...".find(ch).is_none()`). -/
def scanGood (ch : Char) : Bool :=
  decide (' ' ≤ ch) && !(reservedChars.contains ch)

/-- The classification of an accumulated unquoted scalar in
`JsonTextReader::parse` (lines 250-269): the exact keywords, else a
number when the right-trimmed text parses as `f64`, else a string. -/
def classify (tt : List Char) : JsonTokenKind :=
  if tt = "null".toList then .Null
  else if tt = "true".toList then .True
  else if tt = "false".toList then .False
  else if f64FromStrOk (trimEnd tt) then .Number
  else .String

/-- `JsonTextReader::new`: full source, fresh char-indices iterator,
empty pushback, initial stack `[Parse]`. -/
def JsonTextReader.new (source : List Char) : JsonTextReader :=
  { source := source, idxChars := charIndices source, next := none,
    stateStack := [.Parse] }

/-- The cursor advance `JsonTextReader::next` (renamed: `next` is the
pushback field): pushback slot first, else the char-indices iterator. -/
def JsonTextReader.rnext (r : JsonTextReader) : Option IdxChar × JsonTextReader :=
  match r.next with
  | some n => (some n, { r with next := none })
  | none =>
    match r.idxChars with
    | [] => (none, r)
    | ich :: rest => (some ich, { r with idxChars := rest })

/-- `JsonTextReader::back`: store one pair in the pushback slot
(overwriting it, exactly as the Rust assignment does). -/
def JsonTextReader.back (r : JsonTextReader) (ich : IdxChar) : JsonTextReader :=
  { r with next := some ich }

/-- The characters still to be delivered by the cursor: the pushback
slot (if occupied) followed by the remaining char-indices. -/
def stream (r : JsonTextReader) : List IdxChar :=
  (match r.next with | some ich => [ich] | none => []) ++ r.idxChars

def streamChars (r : JsonTextReader) : List Char := (stream r).map Prod.snd

/-- Number of characters the cursor can still deliver; every loop of the
Rust code consumes at least one character per iteration, so `rem r + 1`
is sufficient fuel for each loop below. -/
def rem (r : JsonTextReader) : Nat := (stream r).length

/-- The line-comment loop of `JsonTextReader::next_clean` (used for both
the second half of a slash-slash comment and for a hash comment, which
are letter-for-letter the same loop in the Rust source): consume until a
newline or carriage return has been consumed, or end of input. -/
def skipLineF : Nat → JsonTextReader → Except RunError JsonTextReader
  | 0, _ => .error .outOfFuel
  | f + 1, r =>
    match r.rnext with
    | (none, r₁) => .ok r₁
    | (some (_, ch), r₁) => if ch = '\n' ∨ ch = '\r' then .ok r₁ else skipLineF f r₁

def skipLine (r : JsonTextReader) : Except RunError JsonTextReader :=
  skipLineF (rem r + 1) r

/-- The block-comment loop of `JsonTextReader::next_clean`: consume until
a star-slash; end of input is `UnclosedComment`; a star followed by a
non-slash is pushed back. -/
def skipBlockF : Nat → JsonTextReader →
    Except RunError (Except SyntaxError Unit × JsonTextReader)
  | 0, _ => .error .outOfFuel
  | f + 1, r =>
    match r.rnext with
    | (none, r₁) => .ok (.error .UnclosedComment, r₁)
    | (some (_, ch), r₁) =>
      if ch = '*' then
        match r₁.rnext with
        | (some (_, '/'), r₂) => .ok (.ok (), r₂)
        | (some ich, r₂) => skipBlockF f (r₂.back ich)
        | (none, r₂) => .ok (.error .UnclosedComment, r₂)
      else skipBlockF f r₁

def skipBlock (r : JsonTextReader) :
    Except RunError (Except SyntaxError Unit × JsonTextReader) :=
  skipBlockF (rem r + 1) r

/-- `JsonTextReader::next_clean` (lines 276-328): skip whitespace and the
three comment forms, returning the first significant pair, `none` at end
of input, or `UnclosedComment`.  The slash arm is embedded exactly as
written in the Rust source, including the shadowed binding: when the
character after a slash is neither slash nor star, that FOLLOWING pair is
pushed back and also returned (the slash itself is dropped). -/
def next_cleanF : Nat → JsonTextReader →
    Except RunError (Except SyntaxError (Option IdxChar) × JsonTextReader)
  | 0, _ => .error .outOfFuel
  | f + 1, r =>
    match r.rnext with
    | (none, r₁) => .ok (.ok none, r₁)
    | (some ich, r₁) =>
      if ich.2 = '/' then
        match r₁.rnext with
        | (none, r₂) => .ok (.ok (some ich), r₂)
        | (some (_, '/'), r₂) =>
          match skipLine r₂ with
          | .error p => .error p
          | .ok r₃ => next_cleanF f r₃
        | (some (_, '*'), r₂) =>
          match skipBlock r₂ with
          | .error p => .error p
          | .ok (.error e, r₃) => .ok (.error e, r₃)
          | .ok (.ok _, r₃) => next_cleanF f r₃
        | (some ich₂, r₂) => .ok (.ok (some ich₂), r₂.back ich₂)
      else if ich.2 = '#' then
        match skipLine r₁ with
        | .error p => .error p
        | .ok r₂ => next_cleanF f r₂
      else if ' ' < ich.2 then .ok (.ok (some ich), r₁)
      else next_cleanF f r₁

def next_clean (r : JsonTextReader) :
    Except RunError (Except SyntaxError (Option IdxChar) × JsonTextReader) :=
  next_cleanF (rem r + 1) r

/-- `JsonTextReader::parse_string` (lines 193-203): scan a quoted string
given the byte offset `si` of the opening quote and the quote character.
End of input or a raw newline is `UnterminatedString`; a backslash
unconditionally consumes the following character (the Rust match guard
`self.next().is_none()` performs that consumption), erroring only when
there is none; a matching quote returns the raw slice from the opening
quote through the closing quote. -/
def parseStringF : Nat → JsonTextReader → Nat → Char →
    Except RunError (Except SyntaxError (List Char) × JsonTextReader)
  | 0, _, _, _ => .error .outOfFuel
  | f + 1, r, si, quote =>
    match r.rnext with
    | (none, r₁) => .ok (.error .UnterminatedString, r₁)
    | (some (ei, ch), r₁) =>
      if ch = '\n' ∨ ch = '\r' then .ok (.error .UnterminatedString, r₁)
      else if ch = '\\' then
        match r₁.rnext with
        | (none, r₂) => .ok (.error .UnterminatedString, r₂)
        | (some _, r₂) =>
          if ch = quote then
            match strSlice r₂.source si (ei + 1) with
            | some text => .ok (.ok text, r₂)
            | none => .error .slicePanic
          else parseStringF f r₂ si quote
      else if ch = quote then
        match strSlice r₁.source si (ei + 1) with
        | some text => .ok (.ok text, r₁)
        | none => .error .slicePanic
      else parseStringF f r₁ si quote

def parse_string (r : JsonTextReader) (si : Nat) (quote : Char) :
    Except RunError (Except SyntaxError (List Char) × JsonTextReader) :=
  parseStringF (rem r + 1) r si quote

/-- The unquoted-scalar accumulation loop of `JsonTextReader::parse`
(lines 229-243): starting from the already-consumed character `ch` at
pair offset `pi` with end offset `ei`, extend `ei` by the UTF-8 size of
each character satisfying `scanGood`, stopping at end of input or at the
first offending character, which is pushed back. -/
def scanF : Nat → JsonTextReader → Nat → Nat → Char →
    Except RunError (Nat × JsonTextReader)
  | 0, _, _, _, _ => .error .outOfFuel
  | f + 1, r, ei, pi, ch =>
    if scanGood ch then
      let ei₂ := ei + ch.utf8Size
      match r.rnext with
      | (some (pi₂, ch₂), r₁) => scanF f r₁ ei₂ pi₂ ch₂
      | (none, r₁) => .ok (ei₂, r₁)
    else .ok (ei, r.back (pi, ch))

def scan (r : JsonTextReader) (ei pi : Nat) (ch : Char) :
    Except RunError (Nat × JsonTextReader) :=
  scanF (rem r + 1) r ei pi ch

/-- Push a continuation state (`self.state_stack.push(...)`; the head of
the list is the top of the `Vec`). -/
def pushState (r : JsonTextReader) (s : ReaderState) : JsonTextReader :=
  { r with stateStack := s :: r.stateStack }

/-- `JsonTextReader::parse` (lines 205-274): produce one value token.
Significant quote starts a string token; a left brace or bracket emits
the structural token and pushes the member/element continuation; any
other character starts the unquoted-scalar scan, whose result is sliced
out of the source and classified. -/
def parse (r : JsonTextReader) :
    Except RunError (Except SyntaxError JsonToken × JsonTextReader) :=
  match next_clean r with
  | .error p => .error p
  | .ok (.error e, r₁) => .ok (.error e, r₁)
  | .ok (.ok none, r₁) => .ok (.error .MissingValue, r₁)
  | .ok (.ok (some (i, ch)), r₁) =>
    if ch = '"' ∨ ch = '\'' then
      match parse_string r₁ i ch with
      | .error p => .error p
      | .ok (.error e, r₂) => .ok (.error e, r₂)
      | .ok (.ok text, r₂) => .ok (.ok ⟨.String, text⟩, r₂)
    else if ch = '\x7b' then
      let r₂ := pushState r₁ .ParseObjectMemberName
      match strSlice r₂.source i (i + 1) with
      | some text => .ok (.ok ⟨.ObjectStart, text⟩, r₂)
      | none => .error .slicePanic
    else if ch = '[' then
      let r₂ := pushState r₁ .ParseArrayFirst
      match strSlice r₂.source i (i + 1) with
      | some text => .ok (.ok ⟨.ArrayStart, text⟩, r₂)
      | none => .error .slicePanic
    else
      match scan r₁ i i ch with
      | .error p => .error p
      | .ok (ei, r₂) =>
        if ei = i then .ok (.error .MissingValue, r₂)
        else
          match strSlice r₂.source i ei with
          | some tt => .ok (.ok ⟨classify tt, tt⟩, r₂)
          | none => .error .slicePanic

/-- `JsonTextReader::parse_array_first` (lines 164-173). -/
def parse_array_first (r : JsonTextReader) :
    Except RunError (Except SyntaxError JsonToken × JsonTextReader) :=
  match next_clean r with
  | .error p => .error p
  | .ok (.error e, r₁) => .ok (.error e, r₁)
  | .ok (.ok none, r₁) => .ok (.error .UnterminatedArray, r₁)
  | .ok (.ok (some (i, ch)), r₁) =>
    if ch = ']' then
      match strSlice r₁.source i (i + 1) with
      | some text => .ok (.ok ⟨.ArrayEnd, text⟩, r₁)
      | none => .error .slicePanic
    else
      parse (pushState (r₁.back (i, ch)) .ParseArrayNext)

/-- `JsonTextReader::parse_array_next` (lines 175-191). -/
def parse_array_next (r : JsonTextReader) :
    Except RunError (Except SyntaxError JsonToken × JsonTextReader) :=
  match next_clean r with
  | .error p => .error p
  | .ok (.error e, r₁) => .ok (.error e, r₁)
  | .ok (.ok none, r₁) => .ok (.error .UnterminatedArray, r₁)
  | .ok (.ok (some (i, ch)), r₁) =>
    if ch = ',' ∨ ch = ';' then
      match next_clean r₁ with
      | .error p => .error p
      | .ok (.error e, r₂) => .ok (.error e, r₂)
      | .ok (.ok none, r₂) => .ok (.error .UnterminatedArray, r₂)
      | .ok (.ok (some (j, ch₂)), r₂) =>
        if ch₂ = ']' then
          match strSlice r₂.source j (j + 1) with
          | some text => .ok (.ok ⟨.ArrayEnd, text⟩, r₂)
          | none => .error .slicePanic
        else
          parse (pushState (r₂.back (j, ch₂)) .ParseArrayNext)
    else if ch = ']' then
      match strSlice r₁.source i (i + 1) with
      | some text => .ok (.ok ⟨.ArrayEnd, text⟩, r₁)
      | none => .error .slicePanic
    else .ok (.error .UnterminatedArray, r₁)

/-- `JsonTextReader::parse_object_member_name` (lines 119-128): a right
brace ends the object; otherwise the name is read by `parse` and its
kind is rewritten to `ObjectMember` (text unchanged). -/
def parse_object_member_name (r : JsonTextReader) :
    Except RunError (Except SyntaxError JsonToken × JsonTextReader) :=
  match next_clean r with
  | .error p => .error p
  | .ok (.error e, r₁) => .ok (.error e, r₁)
  | .ok (.ok none, r₁) => .ok (.error .UnterminatedObject, r₁)
  | .ok (.ok (some (i, ch)), r₁) =>
    if ch = '\x7d' then
      match strSlice r₁.source i (i + 1) with
      | some text => .ok (.ok ⟨.ObjectEnd, text⟩, r₁)
      | none => .error .slicePanic
    else
      match parse (pushState (r₁.back (i, ch)) .ParseObjectMemberValue) with
      | .error p => .error p
      | .ok (.error e, r₂) => .ok (.error e, r₂)
      | .ok (.ok tok, r₂) => .ok (.ok ⟨.ObjectMember, tok.text⟩, r₂)

/-- `JsonTextReader::parse_object_member_value` (lines 130-144),
embedded exactly as written in the Rust source: a colon is consumed; on
an equals sign the next raw character is consumed and is pushed back
only when it IS a greater-than sign (`if let (_, '>') = ich {
self.back(ich); }`); anything else is `InvalidMemberValueDelimiter`. -/
def parse_object_member_value (r : JsonTextReader) :
    Except RunError (Except SyntaxError JsonToken × JsonTextReader) :=
  match next_clean r with
  | .error p => .error p
  | .ok (.error e, r₁) => .ok (.error e, r₁)
  | .ok (.ok none, r₁) => .ok (.error .UnterminatedObject, r₁)
  | .ok (.ok (some (_i, ch)), r₁) =>
    if ch = ':' then parse (pushState r₁ .ParseObjectMemberNext)
    else if ch = '=' then
      match r₁.rnext with
      | (none, r₂) => .ok (.error .InvalidMemberValueDelimiter, r₂)
      | (some ich₂, r₂) =>
        let r₃ := if ich₂.2 = '>' then r₂.back ich₂ else r₂
        parse (pushState r₃ .ParseObjectMemberNext)
    else .ok (.error .InvalidMemberValueDelimiter, r₁)

/-- `JsonTextReader::parse_object_member_next` (lines 146-162). -/
def parse_object_member_next (r : JsonTextReader) :
    Except RunError (Except SyntaxError JsonToken × JsonTextReader) :=
  match next_clean r with
  | .error p => .error p
  | .ok (.error e, r₁) => .ok (.error e, r₁)
  | .ok (.ok none, r₁) => .ok (.error .UnterminatedObject, r₁)
  | .ok (.ok (some (i, ch)), r₁) =>
    if ch = ';' ∨ ch = ',' then
      match next_clean r₁ with
      | .error p => .error p
      | .ok (.error e, r₂) => .ok (.error e, r₂)
      | .ok (.ok none, r₂) => .ok (.error .UnterminatedObject, r₂)
      | .ok (.ok (some (j, ch₂)), r₂) =>
        if ch₂ = '\x7d' then
          match strSlice r₂.source j (j + 1) with
          | some text => .ok (.ok ⟨.ObjectEnd, text⟩, r₂)
          | none => .error .slicePanic
        else
          parse (pushState (r₂.back (j, ch₂)) .ParseObjectMemberValue)
    else if ch = '\x7d' then
      match strSlice r₁.source i (i + 1) with
      | some text => .ok (.ok ⟨.ObjectEnd, text⟩, r₁)
      | none => .error .slicePanic
    else .ok (.error .UnterminatedObject, r₁)

/-- One item request, `<JsonTextReader as Iterator>::next` (lines
84-93): pop the continuation stack (returning `none`, end of sequence,
when it is empty) and dispatch to the matching parse step. -/
def readerNext (r : JsonTextReader) :
    Except RunError (Option (Except SyntaxError JsonToken) × JsonTextReader) :=
  match r.stateStack with
  | [] => .ok (none, r)
  | s :: restStack =>
    let r₀ : JsonTextReader := { r with stateStack := restStack }
    match (match s with
           | .Parse => parse r₀
           | .ParseArrayFirst => parse_array_first r₀
           | .ParseArrayNext => parse_array_next r₀
           | .ParseObjectMemberName => parse_object_member_name r₀
           | .ParseObjectMemberValue => parse_object_member_value r₀
           | .ParseObjectMemberNext => parse_object_member_next r₀) with
    | .error p => .error p
    | .ok (res, r₁) => .ok (some res, r₁)

/-- Weight of a continuation state, used for the fuel of the driver
loop: with the character count weighted four times, every item-producing
request strictly decreases `W` below. -/
def stateW : ReaderState → Nat
  | .Parse => 1
  | .ParseArrayFirst => 2
  | .ParseArrayNext => 1
  | .ParseObjectMemberName => 2
  | .ParseObjectMemberValue => 1
  | .ParseObjectMemberNext => 1

def W (r : JsonTextReader) : Nat :=
  4 * rem r + (r.stateStack.map stateW).sum

/-- The full item sequence obtained by requesting tokens until the
continuation stack is empty (what the driver in src/main.rs prints). -/
def tokenizeF : Nat → JsonTextReader →
    Except RunError (List (Except SyntaxError JsonToken))
  | 0, _ => .error .outOfFuel
  | f + 1, r =>
    match readerNext r with
    | .error p => .error p
    | .ok (none, _) => .ok []
    | .ok (some item, r₁) => (tokenizeF f r₁).map (item :: ·)

def tokenize (s : List Char) : Except RunError (List (Except SyntaxError JsonToken)) :=
  tokenizeF (W (JsonTextReader.new s) + 1) (JsonTextReader.new s)

/-- C1: the claim states that after a member name, `=` alone or `=>` is
accepted as the name/value delimiter — the `>` being consumed exactly
when present, by lookahead then pushback of a non-`>` character — so
that the alternate-delimiter object tokenizes to the same kind sequence
(ObjectStart, ObjectMember, Number, ObjectEnd) as the standard one.
The code FAILS this claim: the pushback condition in
`parse_object_member_value` is inverted (`if let (_, '>') = ich {
self.back(ich); }` pushes the `>` BACK into the stream and silently
drops a non-`>` character), so the member value of the
alternate-delimiter input lexes as the String ">1" instead of the
Number 1, and with `=` alone the value's first character is lost. -/
theorem c1_member_value_delimiter_bug :
    tokenize "\x7b'a'=>1;\x7d".toList =
      .ok [.ok ⟨.ObjectStart, ['\x7b']⟩, .ok ⟨.ObjectMember, ['\'', 'a', '\'']⟩,
           .ok ⟨.String, ['>', '1']⟩, .ok ⟨.ObjectEnd, ['\x7d']⟩] ∧
    tokenize "\x7b\"a\":1\x7d".toList =
      .ok [.ok ⟨.ObjectStart, ['\x7b']⟩, .ok ⟨.ObjectMember, ['"', 'a', '"']⟩,
           .ok ⟨.Number, ['1']⟩, .ok ⟨.ObjectEnd, ['\x7d']⟩] ∧
    tokenize "\x7b\"a\"=1\x7d".toList =
      .ok [.ok ⟨.ObjectStart, ['\x7b']⟩, .ok ⟨.ObjectMember, ['"', 'a', '"']⟩,
           .error .MissingValue, .ok ⟨.ObjectEnd, ['\x7d']⟩] :=
  ⟨rfl, rfl, rfl⟩

/-- C2: the claim states that when `next_clean` meets a `/` not followed
by `/` or `*`, it returns the `/` itself (at the offset of the `/`) and
the following character is neither lost nor delivered twice.  The code
FAILS this claim: in the final arm of the slash match the inner `ich`
binding shadows the outer one, so on the input `/a` the pair `(1, 'a')`
— the character AFTER the slash — is both returned as the significant
character and left in the pushback slot (hence delivered twice), while
the `/` at offset 0 is dropped. -/
theorem c2_next_clean_slash_bug :
    next_clean (JsonTextReader.new ['/', 'a']) =
      .ok (.ok (some (1, 'a')),
        { source := ['/', 'a'], stateStack := [.Parse], idxChars := [],
          next := some (1, 'a') }) := rfl

/-- C3: the claim states that every byte-range slice taken by the
tokenizer is in bounds and on character boundaries, so no step can
panic.  The code FAILS this claim: on the two-byte input `/5` the
doubled delivery of `5` (the `next_clean` shadowing bug: the character
after the slash is both returned and pushed back) makes the unquoted-scalar scan add the UTF-8
size of `5` twice, computing end offset 3, and the slice
`&source[1..3]` of the length-2 buffer panics. -/
theorem c3_scan_slice_panic :
    tokenize ['/', '5'] = .error .slicePanic ∧ strSlice ['/', '5'] 1 3 = none :=
  ⟨rfl, rfl⟩

/-- C6: each malformed input fails with exactly the matching error kind
as an item of the sequence: an unclosed quoted string gives
UnterminatedString; `[1,2` gives UnterminatedArray after ArrayStart and
two Numbers; an unclosed object gives UnterminatedObject after its
preceding tokens; an unterminated block comment gives UnclosedComment;
a member name followed by a value without a delimiter gives
InvalidMemberValueDelimiter; the empty input gives MissingValue as its
only item. -/
theorem c6_error_kinds :
    tokenize "\"abc".toList = .ok [.error .UnterminatedString] ∧
    tokenize "[1,2".toList =
      .ok [.ok ⟨.ArrayStart, ['[']⟩, .ok ⟨.Number, ['1']⟩,
           .ok ⟨.Number, ['2']⟩, .error .UnterminatedArray] ∧
    tokenize "\x7b\"a\":1".toList =
      .ok [.ok ⟨.ObjectStart, ['\x7b']⟩, .ok ⟨.ObjectMember, ['"', 'a', '"']⟩,
           .ok ⟨.Number, ['1']⟩, .error .UnterminatedObject] ∧
    tokenize "/* unterminated".toList = .ok [.error .UnclosedComment] ∧
    tokenize "\x7b\"a\" 1\x7d".toList =
      .ok [.ok ⟨.ObjectStart, ['\x7b']⟩, .ok ⟨.ObjectMember, ['"', 'a', '"']⟩,
           .error .InvalidMemberValueDelimiter] ∧
    tokenize "".toList = .ok [.error .MissingValue] :=
  ⟨rfl, rfl, rfl, rfl, rfl, rfl⟩

/-- C8: the claim states that for every finite input the continuation
stack becomes empty after finitely many requests, after which every
further request signals end of sequence.  The code FAILS this claim: on
the input whose object member value is `/5`, the first two requests
succeed (ObjectStart, ObjectMember), and the third request panics with
ParseObjectMemberValue still on the stack (inside that step the value
delimiter `:` has been consumed and ParseObjectMemberNext pushed when
`parse` hits the out-of-bounds slice caused by the doubled delivery
after the lone slash), so the stack never becomes empty. -/
theorem c8_panic_with_pending_stack :
    readerNext (JsonTextReader.new "\x7b\"a\":/5".toList) =
      .ok (some (.ok ⟨.ObjectStart, ['\x7b']⟩),
        { source := "\x7b\"a\":/5".toList,
          stateStack := [.ParseObjectMemberName],
          idxChars := [(1, '"'), (2, 'a'), (3, '"'), (4, ':'), (5, '/'), (6, '5')],
          next := none }) ∧
    readerNext
        { source := "\x7b\"a\":/5".toList,
          stateStack := [.ParseObjectMemberName],
          idxChars := [(1, '"'), (2, 'a'), (3, '"'), (4, ':'), (5, '/'), (6, '5')],
          next := none } =
      .ok (some (.ok ⟨.ObjectMember, ['"', 'a', '"']⟩),
        { source := "\x7b\"a\":/5".toList,
          stateStack := [.ParseObjectMemberValue],
          idxChars := [(4, ':'), (5, '/'), (6, '5')],
          next := none }) ∧
    readerNext
        { source := "\x7b\"a\":/5".toList,
          stateStack := [.ParseObjectMemberValue],
          idxChars := [(4, ':'), (5, '/'), (6, '5')],
          next := none } =
      .error .slicePanic ∧
    tokenize "\x7b\"a\":/5".toList = .error .slicePanic :=
  ⟨rfl, rfl, rfl, rfl⟩

/-- C9: continued iteration after an error can yield further tokens of
the enclosing structure: on an array whose first element is missing, the
reader yields ArrayStart, then Err(MissingValue), then the Number `1`
and the closing ArrayEnd — the continuation stack retained the
enclosing-array entry across the inner error. -/
theorem c9_tokens_after_error :
    tokenize "[,1]".toList =
      .ok [.ok ⟨.ArrayStart, ['[']⟩, .error .MissingValue,
           .ok ⟨.Number, ['1']⟩, .ok ⟨.ArrayEnd, [']']⟩] := rfl

/-- C10: unquoted-scalar classification: the exact texts null, true and
false classify as the keyword kinds (case-sensitively, so NULL is a
String); 123, -1.5e10 and 0.5 classify as Number; abc and 1.2.3 classify
as String. -/
theorem c10_classification :
    classify "null".toList = .Null ∧ classify "true".toList = .True ∧
    classify "false".toList = .False ∧ classify "NULL".toList = .String ∧
    classify "123".toList = .Number ∧ classify "-1.5e10".toList = .Number ∧
    classify "0.5".toList = .Number ∧ classify "abc".toList = .String ∧
    classify "1.2.3".toList = .String :=
  ⟨rfl, rfl, rfl, rfl, rfl, rfl, rfl, rfl, rfl⟩

/-- C4 counterexample: the claim states the scan accumulates only
characters strictly greater than U+0020, so that a space terminates the
scan and never occurs inside an unquoted scalar token's text; but the
code tests greater-OR-EQUAL (`ch >= ' '`), and on the input `[a b]` the
emitted scalar token's text is `a b`, which contains the space — and
`scanGood`, the code's continuation condition, accepts U+0020. -/
theorem c4_counterexample :
    tokenize "[a b]".toList =
      .ok [.ok ⟨.ArrayStart, ['[']⟩, .ok ⟨.String, ['a', ' ', 'b']⟩,
           .ok ⟨.ArrayEnd, [']']⟩] ∧
    ' ' ∈ ['a', ' ', 'b'] ∧ scanGood ' ' = true :=
  ⟨rfl, by decide, rfl⟩

/-- Advancing the cursor never changes the source or the stack. -/
theorem rnext_inv {r : JsonTextReader} {o : Option IdxChar} {r₁ : JsonTextReader}
    (h : r.rnext = (o, r₁)) :
    r₁.source = r.source ∧ r₁.stateStack = r.stateStack := by
  cases hn : r.next with
  | some n =>
    simp [JsonTextReader.rnext, hn] at h
    obtain ⟨-, h⟩ := h
    subst h
    exact ⟨rfl, rfl⟩
  | none =>
    cases hi : r.idxChars with
    | nil =>
      simp [JsonTextReader.rnext, hn, hi] at h
      obtain ⟨-, h⟩ := h
      subst h
      exact ⟨rfl, rfl⟩
    | cons a rest =>
      simp [JsonTextReader.rnext, hn, hi] at h
      obtain ⟨-, h⟩ := h
      subst h
      exact ⟨rfl, rfl⟩

/-- A successful advance takes exactly the head of the stream and leaves
the pushback slot empty. -/
theorem rnext_some {r : JsonTextReader} {ich : IdxChar} {r₁ : JsonTextReader}
    (h : r.rnext = (some ich, r₁)) :
    stream r = ich :: stream r₁ ∧ r₁.next = none := by
  cases hn : r.next with
  | some n =>
    simp [JsonTextReader.rnext, hn] at h
    obtain ⟨h1, h2⟩ := h
    subst h2
    simp [stream, hn, h1]
  | none =>
    cases hi : r.idxChars with
    | nil => simp [JsonTextReader.rnext, hn, hi] at h
    | cons a rest =>
      simp [JsonTextReader.rnext, hn, hi] at h
      obtain ⟨h1, h2⟩ := h
      subst h2
      simp [stream, hn, hi, h1]

/-- An advance returning nothing leaves the reader unchanged, and happens
exactly at the empty stream. -/
theorem rnext_none {r r₁ : JsonTextReader} (h : r.rnext = (none, r₁)) :
    r₁ = r ∧ stream r = [] := by
  cases hn : r.next with
  | some n => simp [JsonTextReader.rnext, hn] at h
  | none =>
    cases hi : r.idxChars with
    | nil =>
      simp [JsonTextReader.rnext, hn, hi] at h
      subst h
      simp [stream, hn, hi]
    | cons a rest => simp [JsonTextReader.rnext, hn, hi] at h

theorem rnext_rem {r : JsonTextReader} {ich : IdxChar} {r₁ : JsonTextReader}
    (h : r.rnext = (some ich, r₁)) : rem r = rem r₁ + 1 := by
  have hs := (rnext_some h).1
  simp [rem, hs]

theorem back_inv (r : JsonTextReader) (ich : IdxChar) :
    (r.back ich).source = r.source ∧ (r.back ich).stateStack = r.stateStack :=
  ⟨rfl, rfl⟩

/-- Pushing back onto an empty slot puts the pair at the head of the
stream. -/
theorem back_stream {r : JsonTextReader} (ich : IdxChar) (h : r.next = none) :
    stream (r.back ich) = ich :: stream r := by
  simp [stream, JsonTextReader.back, h]

/-- The line-comment loop never changes the source or the stack. -/
theorem skipLineF_inv : ∀ (f : Nat) {r r₁ : JsonTextReader}, skipLineF f r = .ok r₁ →
    r₁.source = r.source ∧ r₁.stateStack = r.stateStack := by
  intro f
  induction f with
  | zero => intro r r₁ h; exact absurd h (by simp [skipLineF])
  | succ f ih =>
    intro r r₁ h
    unfold skipLineF at h
    split at h
    · next r₂ heq =>
      injection h with h'
      subst h'
      exact rnext_inv heq
    · next pi ch r₂ heq =>
      split at h
      · injection h with h'
        subst h'
        exact rnext_inv heq
      · have h1 := rnext_inv heq
        have h2 := ih h
        exact ⟨h2.1.trans h1.1, h2.2.trans h1.2⟩

theorem skipLine_inv {r r₁ : JsonTextReader} (h : skipLine r = .ok r₁) :
    r₁.source = r.source ∧ r₁.stateStack = r.stateStack :=
  skipLineF_inv _ h

/-- The block-comment loop never changes the source or the stack. -/
theorem skipBlockF_inv : ∀ (f : Nat) {r : JsonTextReader}
    {res : Except SyntaxError Unit} {r₁ : JsonTextReader},
    skipBlockF f r = .ok (res, r₁) →
    r₁.source = r.source ∧ r₁.stateStack = r.stateStack := by
  intro f
  induction f with
  | zero => intro r res r₁ h; exact absurd h (by simp [skipBlockF])
  | succ f ih =>
    intro r res r₁ h
    unfold skipBlockF at h
    split at h
    · next r₂ heq =>
      injection h with h'
      injection h' with h1 h2
      subst h2
      exact rnext_inv heq
    · next pi ch r₂ heq =>
      split at h
      · split at h
        · next r₃ heq₂ =>
          injection h with h'
          injection h' with h1 h2
          subst h2
          have h1 := rnext_inv heq
          have h3 := rnext_inv heq₂
          exact ⟨h3.1.trans h1.1, h3.2.trans h1.2⟩
        · rename_i heq₂
          have h1 := rnext_inv heq
          have h3 := rnext_inv heq₂
          have h4 := ih h
          exact ⟨(h4.1.trans h3.1).trans h1.1, (h4.2.trans h3.2).trans h1.2⟩
        · next r₃ heq₂ =>
          injection h with h'
          injection h' with h1 h2
          subst h2
          have h1 := rnext_inv heq
          have h3 := rnext_inv heq₂
          exact ⟨h3.1.trans h1.1, h3.2.trans h1.2⟩
      · have h1 := rnext_inv heq
        have h2 := ih h
        exact ⟨h2.1.trans h1.1, h2.2.trans h1.2⟩

theorem skipBlock_inv {r : JsonTextReader} {res : Except SyntaxError Unit}
    {r₁ : JsonTextReader} (h : skipBlock r = .ok (res, r₁)) :
    r₁.source = r.source ∧ r₁.stateStack = r.stateStack :=
  skipBlockF_inv _ h

/-- Skipping insignificant input never changes the source or the stack. -/
theorem next_cleanF_inv : ∀ (f : Nat) {r : JsonTextReader}
    {res : Except SyntaxError (Option IdxChar)} {r₁ : JsonTextReader},
    next_cleanF f r = .ok (res, r₁) →
    r₁.source = r.source ∧ r₁.stateStack = r.stateStack := by
  intro f
  induction f with
  | zero => intro r res r₁ h; exact absurd h (by simp [next_cleanF])
  | succ f ih =>
    intro r res r₁ h
    unfold next_cleanF at h
    split at h
    · next r₂ heq =>
      injection h with h'
      injection h' with h1 h2
      subst h2
      exact rnext_inv heq
    · next ich r₂ heq =>
      split at h
      · split at h
        · next r₃ heq₂ =>
          injection h with h'
          injection h' with h1 h2
          subst h2
          have h1 := rnext_inv heq
          have h3 := rnext_inv heq₂
          exact ⟨h3.1.trans h1.1, h3.2.trans h1.2⟩
        · next r₃ heq₂ =>
          split at h
          · exact absurd h (by simp)
          · next r₄ heq₃ =>
            have h1 := rnext_inv heq
            have h3 := rnext_inv heq₂
            have h4 := skipLine_inv heq₃
            have h5 := ih h
            exact ⟨((h5.1.trans h4.1).trans h3.1).trans h1.1,
                   ((h5.2.trans h4.2).trans h3.2).trans h1.2⟩
        · next r₃ heq₂ =>
          split at h
          · exact absurd h (by simp)
          · next e r₄ heq₃ =>
            injection h with h'
            injection h' with h1 h2
            subst h2
            have h1 := rnext_inv heq
            have h3 := rnext_inv heq₂
            have h4 := skipBlock_inv heq₃
            exact ⟨(h4.1.trans h3.1).trans h1.1, (h4.2.trans h3.2).trans h1.2⟩
          · next r₄ heq₃ =>
            have h1 := rnext_inv heq
            have h3 := rnext_inv heq₂
            have h4 := skipBlock_inv heq₃
            have h5 := ih h
            exact ⟨((h5.1.trans h4.1).trans h3.1).trans h1.1,
                   ((h5.2.trans h4.2).trans h3.2).trans h1.2⟩
        · rename_i heq₂
          injection h with h'
          injection h' with h1 h2
          subst h2
          have h1 := rnext_inv heq
          have h3 := rnext_inv heq₂
          exact ⟨h3.1.trans h1.1, h3.2.trans h1.2⟩
      · split at h
        · split at h
          · exact absurd h (by simp)
          · next r₃ heq₂ =>
            have h1 := rnext_inv heq
            have h4 := skipLine_inv heq₂
            have h5 := ih h
            exact ⟨(h5.1.trans h4.1).trans h1.1, (h5.2.trans h4.2).trans h1.2⟩
        · split at h
          · injection h with h'
            injection h' with h1 h2
            subst h2
            exact rnext_inv heq
          · have h1 := rnext_inv heq
            have h5 := ih h
            exact ⟨h5.1.trans h1.1, h5.2.trans h1.2⟩

theorem next_clean_inv {r : JsonTextReader} {res : Except SyntaxError (Option IdxChar)}
    {r₁ : JsonTextReader} (h : next_clean r = .ok (res, r₁)) :
    r₁.source = r.source ∧ r₁.stateStack = r.stateStack :=
  next_cleanF_inv _ h

/-- The quoted-string scan never changes the source or the stack. -/
theorem parseStringF_inv : ∀ (f : Nat) {r : JsonTextReader} {si : Nat} {quote : Char}
    {res : Except SyntaxError (List Char)} {r₁ : JsonTextReader},
    parseStringF f r si quote = .ok (res, r₁) →
    r₁.source = r.source ∧ r₁.stateStack = r.stateStack := by
  intro f
  induction f with
  | zero => intro r si quote res r₁ h; exact absurd h (by simp [parseStringF])
  | succ f ih =>
    intro r si quote res r₁ h
    unfold parseStringF at h
    split at h
    · next r₂ heq =>
      injection h with h'
      injection h' with h1 h2
      subst h2
      exact rnext_inv heq
    · next ei ch r₂ heq =>
      split at h
      · injection h with h'
        injection h' with h1 h2
        subst h2
        exact rnext_inv heq
      · split at h
        · split at h
          · next r₃ heq₂ =>
            injection h with h'
            injection h' with h1 h2
            subst h2
            exact ⟨(rnext_inv heq₂).1.trans (rnext_inv heq).1,
                   (rnext_inv heq₂).2.trans (rnext_inv heq).2⟩
          · next v r₃ heq₂ =>
            split at h
            · split at h
              · next t heq₃ =>
                injection h with h'
                injection h' with h1 h2
                subst h2
                exact ⟨(rnext_inv heq₂).1.trans (rnext_inv heq).1,
                       (rnext_inv heq₂).2.trans (rnext_inv heq).2⟩
              · exact absurd h (by simp)
            · have h4 := ih h
              exact ⟨h4.1.trans ((rnext_inv heq₂).1.trans (rnext_inv heq).1),
                     h4.2.trans ((rnext_inv heq₂).2.trans (rnext_inv heq).2)⟩
        · split at h
          · split at h
            · next t heq₃ =>
              injection h with h'
              injection h' with h1 h2
              subst h2
              exact rnext_inv heq
            · exact absurd h (by simp)
          · have h4 := ih h
            exact ⟨h4.1.trans (rnext_inv heq).1, h4.2.trans (rnext_inv heq).2⟩

theorem parse_string_inv {r : JsonTextReader} {si : Nat} {quote : Char}
    {res : Except SyntaxError (List Char)} {r₁ : JsonTextReader}
    (h : parse_string r si quote = .ok (res, r₁)) :
    r₁.source = r.source ∧ r₁.stateStack = r.stateStack :=
  parseStringF_inv _ h

/-- A successful quoted-string scan returns a slice of the source taken
at the byte offset of the opening quote. -/
theorem parseStringF_text : ∀ (f : Nat) {r : JsonTextReader} {si : Nat} {quote : Char}
    {text : List Char} {r₁ : JsonTextReader},
    parseStringF f r si quote = .ok (.ok text, r₁) →
    ∃ b, strSlice r.source si b = some text := by
  intro f
  induction f with
  | zero => intro r si quote text r₁ h; exact absurd h (by simp [parseStringF])
  | succ f ih =>
    intro r si quote text r₁ h
    unfold parseStringF at h
    split at h
    · next r₂ heq =>
      injection h with h'
      injection h' with h1 h2
      exact absurd h1 (by simp)
    · next ei ch r₂ heq =>
      split at h
      · injection h with h'
        injection h' with h1 h2
        exact absurd h1 (by simp)
      · split at h
        · split at h
          · next r₃ heq₂ =>
            injection h with h'
            injection h' with h1 h2
            exact absurd h1 (by simp)
          · next v r₃ heq₂ =>
            split at h
            · split at h
              · next t heq₃ =>
                injection h with h'
                injection h' with h1 h2
                injection h1 with h1
                subst h1
                refine ⟨ei + 1, ?_⟩
                rw [(rnext_inv heq₂).1.trans (rnext_inv heq).1] at heq₃
                exact heq₃
              · exact absurd h (by simp)
            · have h4 := ih h
              rw [(rnext_inv heq₂).1.trans (rnext_inv heq).1] at h4
              exact h4
        · split at h
          · split at h
            · next t heq₃ =>
              injection h with h'
              injection h' with h1 h2
              injection h1 with h1
              subst h1
              refine ⟨ei + 1, ?_⟩
              rw [(rnext_inv heq).1] at heq₃
              exact heq₃
            · exact absurd h (by simp)
          · have h4 := ih h
            rw [(rnext_inv heq).1] at h4
            exact h4

theorem parse_string_text {r : JsonTextReader} {si : Nat} {quote : Char}
    {text : List Char} {r₁ : JsonTextReader}
    (h : parse_string r si quote = .ok (.ok text, r₁)) :
    ∃ b, strSlice r.source si b = some text :=
  parseStringF_text _ h

/-- The unquoted-scalar loop never changes the source or the stack. -/
theorem scanF_inv : ∀ (f : Nat) {r : JsonTextReader} {ei pi : Nat} {ch : Char}
    {ei₁ : Nat} {r₁ : JsonTextReader},
    scanF f r ei pi ch = .ok (ei₁, r₁) →
    r₁.source = r.source ∧ r₁.stateStack = r.stateStack := by
  intro f
  induction f with
  | zero => intro r ei pi ch ei₁ r₁ h; exact absurd h (by simp [scanF])
  | succ f ih =>
    intro r ei pi ch ei₁ r₁ h
    unfold scanF at h
    split at h
    · split at h
      · next pi₂ ch₂ r₂ heq =>
        have h4 := ih h
        exact ⟨h4.1.trans (rnext_inv heq).1, h4.2.trans (rnext_inv heq).2⟩
      · next r₂ heq =>
        injection h with h'
        injection h' with h1 h2
        subst h2
        exact rnext_inv heq
    · injection h with h'
      injection h' with h1 h2
      subst h2
      exact ⟨rfl, rfl⟩

theorem scan_inv {r : JsonTextReader} {ei pi : Nat} {ch : Char}
    {ei₁ : Nat} {r₁ : JsonTextReader} (h : scan r ei pi ch = .ok (ei₁, r₁)) :
    r₁.source = r.source ∧ r₁.stateStack = r.stateStack :=
  scanF_inv _ h

theorem dropToBoundary_suffix : ∀ (s : List Char) (a : Nat) (t : List Char),
    dropToBoundary s a = some t → t <:+ s := by
  intro s
  induction s with
  | nil =>
    intro a t h
    cases a with
    | zero =>
      simp [dropToBoundary] at h
      subst h
      exact List.suffix_rfl
    | succ n => simp [dropToBoundary] at h
  | cons c cs ih =>
    intro a t h
    cases a with
    | zero =>
      simp [dropToBoundary] at h
      subst h
      exact List.suffix_rfl
    | succ n =>
      unfold dropToBoundary at h
      split at h
      · exact (ih _ _ h).trans (List.suffix_cons c cs)
      · exact absurd h (by simp)

theorem takeToBoundary_front : ∀ (s : List Char) (n : Nat) (t : List Char),
    takeToBoundary s n = some t → t <+: s := by
  intro s
  induction s with
  | nil =>
    intro n t h
    cases n with
    | zero =>
      simp [takeToBoundary] at h
      subst h
      exact List.nil_prefix
    | succ m => simp [takeToBoundary] at h
  | cons c cs ih =>
    intro n t h
    cases n with
    | zero =>
      simp [takeToBoundary] at h
      subst h
      exact List.nil_prefix
    | succ m =>
      unfold takeToBoundary at h
      split at h
      · cases hm : takeToBoundary cs (m + 1 - c.utf8Size) with
        | none => rw [hm] at h; simp at h
        | some t2 =>
          rw [hm] at h
          simp at h
          subst h
          exact List.cons_prefix_cons.mpr ⟨rfl, ih _ _ hm⟩
      · exact absurd h (by simp)

/-- Whatever `strSlice` returns is a contiguous piece of the buffer. -/
theorem strSlice_contiguous {s : List Char} {a b : Nat} {t : List Char}
    (h : strSlice s a b = some t) : t <:+: s := by
  unfold strSlice at h
  split at h
  · cases hd : dropToBoundary s a with
    | none => rw [hd] at h; simp at h
    | some tl =>
      rw [hd] at h
      simp at h
      obtain ⟨pre, hpre⟩ := dropToBoundary_suffix _ _ _ hd
      obtain ⟨post, hpost⟩ := takeToBoundary_front _ _ _ h
      exact ⟨pre, post, by rw [← hpre, ← hpost]; simp⟩
  · exact absurd h (by simp)

theorem pushState_source (r : JsonTextReader) (s : ReaderState) :
    (pushState r s).source = r.source := rfl

theorem back_source (r : JsonTextReader) (ich : IdxChar) :
    (r.back ich).source = r.source := rfl

/-- Every Ok token produced by `parse` carries a slice of the source
buffer as its text. -/
theorem parse_text {r : JsonTextReader} {tok : JsonToken} {r₁ : JsonTextReader}
    (h : parse r = .ok (.ok tok, r₁)) :
    ∃ a b, strSlice r.source a b = some tok.text := by
  unfold parse at h
  split at h
  · exact absurd h (by simp)
  · injection h with h'
    injection h' with h1 h2
    exact absurd h1 (by simp)
  · injection h with h'
    injection h' with h1 h2
    exact absurd h1 (by simp)
  · next i ch rA heq =>
    split at h
    · split at h
      · exact absurd h (by simp)
      · injection h with h'
        injection h' with h1 h2
        exact absurd h1 (by simp)
      · next text rB heq₂ =>
        injection h with h'
        injection h' with h1 h2
        injection h1 with h1
        subst h1
        obtain ⟨b, hb⟩ := parse_string_text heq₂
        rw [(next_clean_inv heq).1] at hb
        exact ⟨i, b, hb⟩
    · split at h
      · dsimp only at h
        split at h
        · next text heq₂ =>
          injection h with h'
          injection h' with h1 h2
          injection h1 with h1
          subst h1
          rw [pushState_source, (next_clean_inv heq).1] at heq₂
          exact ⟨i, i + 1, heq₂⟩
        · exact absurd h (by simp)
      · split at h
        · dsimp only at h
          split at h
          · next text heq₂ =>
            injection h with h'
            injection h' with h1 h2
            injection h1 with h1
            subst h1
            rw [pushState_source, (next_clean_inv heq).1] at heq₂
            exact ⟨i, i + 1, heq₂⟩
          · exact absurd h (by simp)
        · split at h
          · exact absurd h (by simp)
          · next ei rB heq₂ =>
            split at h
            · injection h with h'
              injection h' with h1 h2
              exact absurd h1 (by simp)
            · split at h
              · next tt heq₃ =>
                injection h with h'
                injection h' with h1 h2
                injection h1 with h1
                subst h1
                rw [(scan_inv heq₂).1, (next_clean_inv heq).1] at heq₃
                exact ⟨i, ei, heq₃⟩
              · exact absurd h (by simp)

theorem parse_array_first_text {r : JsonTextReader} {tok : JsonToken} {r₁ : JsonTextReader}
    (h : parse_array_first r = .ok (.ok tok, r₁)) :
    ∃ a b, strSlice r.source a b = some tok.text := by
  unfold parse_array_first at h
  split at h
  · exact absurd h (by simp)
  · injection h with h'
    injection h' with h1 h2
    exact absurd h1 (by simp)
  · injection h with h'
    injection h' with h1 h2
    exact absurd h1 (by simp)
  · next i ch rA heq =>
    split at h
    · split at h
      · next text heq₂ =>
        injection h with h'
        injection h' with h1 h2
        injection h1 with h1
        subst h1
        rw [(next_clean_inv heq).1] at heq₂
        exact ⟨i, i + 1, heq₂⟩
      · exact absurd h (by simp)
    · obtain ⟨a, b, hab⟩ := parse_text h
      rw [pushState_source, back_source, (next_clean_inv heq).1] at hab
      exact ⟨a, b, hab⟩

theorem parse_array_next_text {r : JsonTextReader} {tok : JsonToken} {r₁ : JsonTextReader}
    (h : parse_array_next r = .ok (.ok tok, r₁)) :
    ∃ a b, strSlice r.source a b = some tok.text := by
  unfold parse_array_next at h
  split at h
  · exact absurd h (by simp)
  · injection h with h'
    injection h' with h1 h2
    exact absurd h1 (by simp)
  · injection h with h'
    injection h' with h1 h2
    exact absurd h1 (by simp)
  · next i ch rA heq =>
    split at h
    · split at h
      · exact absurd h (by simp)
      · injection h with h'
        injection h' with h1 h2
        exact absurd h1 (by simp)
      · injection h with h'
        injection h' with h1 h2
        exact absurd h1 (by simp)
      · next j ch₂ rB heq₂ =>
        split at h
        · split at h
          · next text heq₃ =>
            injection h with h'
            injection h' with h1 h2
            injection h1 with h1
            subst h1
            rw [(next_clean_inv heq₂).1, (next_clean_inv heq).1] at heq₃
            exact ⟨j, j + 1, heq₃⟩
          · exact absurd h (by simp)
        · obtain ⟨a, b, hab⟩ := parse_text h
          rw [pushState_source, back_source, (next_clean_inv heq₂).1,
              (next_clean_inv heq).1] at hab
          exact ⟨a, b, hab⟩
    · split at h
      · split at h
        · next text heq₂ =>
          injection h with h'
          injection h' with h1 h2
          injection h1 with h1
          subst h1
          rw [(next_clean_inv heq).1] at heq₂
          exact ⟨i, i + 1, heq₂⟩
        · exact absurd h (by simp)
      · injection h with h'
        injection h' with h1 h2
        exact absurd h1 (by simp)

theorem parse_object_member_name_text {r : JsonTextReader} {tok : JsonToken}
    {r₁ : JsonTextReader} (h : parse_object_member_name r = .ok (.ok tok, r₁)) :
    ∃ a b, strSlice r.source a b = some tok.text := by
  unfold parse_object_member_name at h
  split at h
  · exact absurd h (by simp)
  · injection h with h'
    injection h' with h1 h2
    exact absurd h1 (by simp)
  · injection h with h'
    injection h' with h1 h2
    exact absurd h1 (by simp)
  · next i ch rA heq =>
    split at h
    · split at h
      · next text heq₂ =>
        injection h with h'
        injection h' with h1 h2
        injection h1 with h1
        subst h1
        rw [(next_clean_inv heq).1] at heq₂
        exact ⟨i, i + 1, heq₂⟩
      · exact absurd h (by simp)
    · split at h
      · exact absurd h (by simp)
      · injection h with h'
        injection h' with h1 h2
        exact absurd h1 (by simp)
      · next tok₀ rB heq₂ =>
        injection h with h'
        injection h' with h1 h2
        injection h1 with h1
        subst h1
        obtain ⟨a, b, hab⟩ := parse_text heq₂
        rw [pushState_source, back_source, (next_clean_inv heq).1] at hab
        exact ⟨a, b, hab⟩

theorem parse_object_member_value_text {r : JsonTextReader} {tok : JsonToken}
    {r₁ : JsonTextReader} (h : parse_object_member_value r = .ok (.ok tok, r₁)) :
    ∃ a b, strSlice r.source a b = some tok.text := by
  unfold parse_object_member_value at h
  split at h
  · exact absurd h (by simp)
  · injection h with h'
    injection h' with h1 h2
    exact absurd h1 (by simp)
  · injection h with h'
    injection h' with h1 h2
    exact absurd h1 (by simp)
  · next i ch rA heq =>
    split at h
    · obtain ⟨a, b, hab⟩ := parse_text h
      rw [pushState_source, (next_clean_inv heq).1] at hab
      exact ⟨a, b, hab⟩
    · split at h
      · split at h
        · injection h with h'
          injection h' with h1 h2
          exact absurd h1 (by simp)
        · next ich₂ rB heq₂ =>
          dsimp only at h
          obtain ⟨a, b, hab⟩ := parse_text h
          rw [pushState_source] at hab
          have hsrc : (if ich₂.2 = '>' then rB.back ich₂ else rB).source = rB.source := by
            split
            · rfl
            · rfl
          rw [hsrc, (rnext_inv heq₂).1, (next_clean_inv heq).1] at hab
          exact ⟨a, b, hab⟩
      · injection h with h'
        injection h' with h1 h2
        exact absurd h1 (by simp)

theorem parse_object_member_next_text {r : JsonTextReader} {tok : JsonToken}
    {r₁ : JsonTextReader} (h : parse_object_member_next r = .ok (.ok tok, r₁)) :
    ∃ a b, strSlice r.source a b = some tok.text := by
  unfold parse_object_member_next at h
  split at h
  · exact absurd h (by simp)
  · injection h with h'
    injection h' with h1 h2
    exact absurd h1 (by simp)
  · injection h with h'
    injection h' with h1 h2
    exact absurd h1 (by simp)
  · next i ch rA heq =>
    split at h
    · split at h
      · exact absurd h (by simp)
      · injection h with h'
        injection h' with h1 h2
        exact absurd h1 (by simp)
      · injection h with h'
        injection h' with h1 h2
        exact absurd h1 (by simp)
      · next j ch₂ rB heq₂ =>
        split at h
        · split at h
          · next text heq₃ =>
            injection h with h'
            injection h' with h1 h2
            injection h1 with h1
            subst h1
            rw [(next_clean_inv heq₂).1, (next_clean_inv heq).1] at heq₃
            exact ⟨j, j + 1, heq₃⟩
          · exact absurd h (by simp)
        · obtain ⟨a, b, hab⟩ := parse_text h
          rw [pushState_source, back_source, (next_clean_inv heq₂).1,
              (next_clean_inv heq).1] at hab
          exact ⟨a, b, hab⟩
    · split at h
      · split at h
        · next text heq₂ =>
          injection h with h'
          injection h' with h1 h2
          injection h1 with h1
          subst h1
          rw [(next_clean_inv heq).1] at heq₂
          exact ⟨i, i + 1, heq₂⟩
        · exact absurd h (by simp)
      · injection h with h'
        injection h' with h1 h2
        exact absurd h1 (by simp)

/-- C5: every Ok token the reader ever emits has as its text an exact,
contiguous slice of the original source buffer — there are byte offsets
a and b with strSlice source a b = some text (the byte range at which
the lexeme was read, so quoted strings keep their quote characters and
undecoded escape sequences), and hence the text is an infix of the
buffer; no transformation is applied. -/
theorem c5_token_text (r : JsonTextReader) (tok : JsonToken) (r₁ : JsonTextReader)
    (h : readerNext r = .ok (some (.ok tok), r₁)) :
    ∃ a b, strSlice r.source a b = some tok.text ∧ tok.text <:+: r.source := by
  unfold readerNext at h
  cases hs : r.stateStack with
  | nil =>
    rw [hs] at h
    dsimp only at h
    injection h with h'
    injection h' with h1 h2
    exact absurd h1 (by simp)
  | cons s restStack =>
    rw [hs] at h
    dsimp only at h
    cases s with
    | Parse =>
      split at h
      · exact absurd h (by simp)
      · next res rB heq =>
        injection h with h'
        injection h' with h1 h2
        injection h1 with h1
        subst h1 h2
        obtain ⟨a, b, hab⟩ := parse_text heq
        exact ⟨a, b, hab, strSlice_contiguous hab⟩
    | ParseArrayFirst =>
      split at h
      · exact absurd h (by simp)
      · next res rB heq =>
        injection h with h'
        injection h' with h1 h2
        injection h1 with h1
        subst h1 h2
        obtain ⟨a, b, hab⟩ := parse_array_first_text heq
        exact ⟨a, b, hab, strSlice_contiguous hab⟩
    | ParseArrayNext =>
      split at h
      · exact absurd h (by simp)
      · next res rB heq =>
        injection h with h'
        injection h' with h1 h2
        injection h1 with h1
        subst h1 h2
        obtain ⟨a, b, hab⟩ := parse_array_next_text heq
        exact ⟨a, b, hab, strSlice_contiguous hab⟩
    | ParseObjectMemberName =>
      split at h
      · exact absurd h (by simp)
      · next res rB heq =>
        injection h with h'
        injection h' with h1 h2
        injection h1 with h1
        subst h1 h2
        obtain ⟨a, b, hab⟩ := parse_object_member_name_text heq
        exact ⟨a, b, hab, strSlice_contiguous hab⟩
    | ParseObjectMemberValue =>
      split at h
      · exact absurd h (by simp)
      · next res rB heq =>
        injection h with h'
        injection h' with h1 h2
        injection h1 with h1
        subst h1 h2
        obtain ⟨a, b, hab⟩ := parse_object_member_value_text heq
        exact ⟨a, b, hab, strSlice_contiguous hab⟩
    | ParseObjectMemberNext =>
      split at h
      · exact absurd h (by simp)
      · next res rB heq =>
        injection h with h'
        injection h' with h1 h2
        injection h1 with h1
        subst h1 h2
        obtain ⟨a, b, hab⟩ := parse_object_member_next_text heq
        exact ⟨a, b, hab, strSlice_contiguous hab⟩

/-- C5 witness: the theorem instantiated at the one-character buffer 1,
whose first request emits the Number token sliced out of the buffer. -/
theorem c5_token_text_witness :
    ∃ a b, strSlice (JsonTextReader.new ['1']).source a b = some (['1'] : List Char) ∧
      (['1'] : List Char) <:+: (JsonTextReader.new ['1']).source :=
  c5_token_text (JsonTextReader.new ['1']) ⟨.Number, ['1']⟩
    { source := ['1'], stateStack := [], idxChars := [], next := none } rfl

/-- The failure condition of the quoted-string scan as the claim words
it (the spec-side definition for the refinement comparison): the scan is
unterminated when the input ends before a matching unescaped quote, when
an unescaped line feed or carriage return is reached, or when a
backslash is the last character before end of input; the single
character immediately following a backslash is skipped unconditionally
and neither closes the string nor errors. -/
def specUnterminated (quote : Char) : List Char → Bool
  | [] => true
  | c :: cs =>
    if c = quote then false
    else if c = '\n' ∨ c = '\r' then true
    else if c = '\\' then
      match cs with
      | [] => true
      | _ :: cs₂ => specUnterminated quote cs₂
    else specUnterminated quote cs

/-- Whether a quoted-string scan outcome is the UnterminatedString
error. -/
def isUntermResult :
    Except RunError (Except SyntaxError (List Char) × JsonTextReader) → Bool
  | .ok (.error .UnterminatedString, _) => true
  | _ => false

theorem parseStringF_err_spec : ∀ (f : Nat) (r : JsonTextReader) (si : Nat) (quote : Char),
    rem r < f → quote ≠ '\n' → quote ≠ '\r' → quote ≠ '\\' →
    isUntermResult (parseStringF f r si quote) =
      specUnterminated quote (streamChars r) := by
  intro f
  induction f with
  | zero => intro r si quote hf hn hr hb; exact absurd hf (by omega)
  | succ f ih =>
    intro r si quote hf hn hr hb
    cases hne : r.rnext with
    | mk o r₂ =>
    cases o with
    | none =>
      obtain ⟨heq, hstream⟩ := rnext_none hne
      have hsc : streamChars r = [] := by simp [streamChars, hstream]
      unfold parseStringF
      rw [hne, hsc, specUnterminated.eq_def]
      rfl
    | some ich =>
      obtain ⟨ei, ch⟩ := ich
      obtain ⟨hstream, hslot⟩ := rnext_some hne
      have hsc : streamChars r = ch :: streamChars r₂ := by
        simp [streamChars, hstream]
      unfold parseStringF
      rw [hne, hsc, specUnterminated.eq_def]
      dsimp only
      by_cases h1 : ch = '\n' ∨ ch = '\r'
      · have hq : ¬ ch = quote := by
          rcases h1 with h1 | h1 <;> subst h1
          · exact fun hh => hn hh.symm
          · exact fun hh => hr hh.symm
        rw [if_pos h1, if_neg hq, if_pos h1]
        rfl
      · by_cases h2 : ch = '\\'
        · have hq : ¬ ch = quote := by
            subst h2
            exact fun hh => hb hh.symm
          rw [if_neg h1, if_pos h2, if_neg hq, if_neg h1, if_pos h2]
          cases hne₂ : r₂.rnext with
          | mk o₂ r₃ =>
          cases o₂ with
          | none =>
            obtain ⟨heq₃, hstream₃⟩ := rnext_none hne₂
            have he : streamChars r₂ = [] := by simp [streamChars, hstream₃]
            rw [he]
            rfl
          | some ich₂ =>
            obtain ⟨hstream₂, _⟩ := rnext_some hne₂
            have hsc₂ : streamChars r₂ = ich₂.2 :: streamChars r₃ := by
              simp [streamChars, hstream₂]
            rw [hsc₂]
            dsimp only
            rw [if_neg hq]
            have hrem₂ : rem r₂ = rem r₃ + 1 := rnext_rem hne₂
            have hrem : rem r = rem r₂ + 1 := rnext_rem hne
            exact ih r₃ si quote (by omega) hn hr hb
        · by_cases h3 : ch = quote
          · rw [if_neg h1, if_neg h2, if_pos h3, if_pos h3]
            cases hsl : strSlice r₂.source si (ei + 1) with
            | some t => rfl
            | none => rfl
          · rw [if_neg h1, if_neg h2, if_neg h3, if_neg h3, if_neg h1, if_neg h2]
            have hrem : rem r = rem r₂ + 1 := rnext_rem hne
            exact ih r₂ si quote (by omega) hn hr hb

/-- C7: a quoted-string scan started at an opening double or single
quote returns UnterminatedString exactly when the remaining character
stream ends before a matching unescaped quote, reaches an unescaped
line feed or carriage return, or has a backslash as its last character;
the character immediately following a backslash is consumed
unconditionally and neither closes the string nor causes an error.
`specUnterminated` is the claim's wording; the theorem equates the
code's outcome with it on every reader state. -/
theorem c7_string_scan (r : JsonTextReader) (si : Nat) (quote : Char)
    (hq : quote = '"' ∨ quote = '\'') :
    isUntermResult (parse_string r si quote) =
      specUnterminated quote (streamChars r) := by
  have hn : quote ≠ '\n' := by rcases hq with h | h <;> subst h <;> decide
  have hr : quote ≠ '\r' := by rcases hq with h | h <;> subst h <;> decide
  have hb : quote ≠ '\\' := by rcases hq with h | h <;> subst h <;> decide
  exact parseStringF_err_spec _ r si quote (Nat.lt_succ_self _) hn hr hb

/-- C7 witness: the theorem applied to the concrete reader over the
buffer ab with a double quote; no closing quote ever arrives, and the
scan indeed reports UnterminatedString on both sides. -/
theorem c7_string_scan_witness :
    isUntermResult (parse_string (JsonTextReader.new ['a', 'b']) 0 '"') =
      specUnterminated '"' (streamChars (JsonTextReader.new ['a', 'b'])) :=
  c7_string_scan (JsonTextReader.new ['a', 'b']) 0 '"' (Or.inl rfl)

/-- Total UTF-8 byte size of the characters of the given pairs. -/
def sumSizes (l : List IdxChar) : Nat := (l.map (fun x => x.2.utf8Size)).sum

theorem scanF_spec : ∀ (f : Nat) (r : JsonTextReader) (ei pi : Nat) (ch : Char),
    r.next = none → rem r < f →
    ∃ ei₁ r₁, scanF f r ei pi ch = .ok (ei₁, r₁) ∧
      stream r₁ = ((pi, ch) :: stream r).dropWhile (fun x => scanGood x.2) ∧
      ei₁ = ei + sumSizes (((pi, ch) :: stream r).takeWhile (fun x => scanGood x.2)) := by
  intro f
  induction f with
  | zero => intro r ei pi ch hslot hf; exact absurd hf (by omega)
  | succ f ih =>
    intro r ei pi ch hslot hf
    by_cases hg : scanGood ch
    · cases hne : r.rnext with
      | mk o r₂ =>
      cases o with
      | none =>
        obtain ⟨heq, hstream⟩ := rnext_none hne
        subst heq
        refine ⟨ei + ch.utf8Size, r₂, ?_, ?_, ?_⟩
        · unfold scanF
          rw [if_pos hg, hne]
        · rw [hstream]
          simp [List.dropWhile, hg]
        · rw [hstream]
          simp [List.takeWhile, hg, sumSizes]
      | some ich₂ =>
        obtain ⟨pi₂, ch₂⟩ := ich₂
        obtain ⟨hstream, hslot₂⟩ := rnext_some hne
        have hrem : rem r = rem r₂ + 1 := rnext_rem hne
        obtain ⟨ei₁, r₁, hs, hdrop, htake⟩ :=
          ih r₂ (ei + ch.utf8Size) pi₂ ch₂ hslot₂ (by omega)
        refine ⟨ei₁, r₁, ?_, ?_, ?_⟩
        · unfold scanF
          rw [if_pos hg, hne]
          exact hs
        · rw [hstream, hdrop]
          simp [List.dropWhile, hg]
        · rw [hstream, htake]
          simp [List.takeWhile, hg, sumSizes]
          omega
    · refine ⟨ei, r.back (pi, ch), ?_, ?_, ?_⟩
      · unfold scanF
        rw [if_neg hg]
      · rw [back_stream _ hslot]
        simp [List.dropWhile, hg]
      · simp [List.takeWhile, hg, sumSizes]

/-- C4 (amended): the unquoted-scalar scan accumulates characters
exactly while each one is greater than OR EQUAL to U+0020 — so a space
does NOT terminate the scan and can appear inside an unquoted scalar
token's text — and is not one of the reserved delimiter characters
(scanGood, the code's `ch >= ' ' && ",:]}/\\\"[{;=#".find(ch).is_none()`);
it stops at end of input or at the first offending character, which is
pushed back: the stream left behind is the dropWhile of the scan
condition over the entry character followed by the stream, and the end
offset advances by the total UTF-8 size of the takeWhile. -/
theorem c4_scan_amended (r : JsonTextReader) (ei pi : Nat) (ch : Char)
    (hslot : r.next = none) :
    ∃ ei₁ r₁, scan r ei pi ch = .ok (ei₁, r₁) ∧
      stream r₁ = ((pi, ch) :: stream r).dropWhile (fun x => scanGood x.2) ∧
      ei₁ = ei + sumSizes (((pi, ch) :: stream r).takeWhile (fun x => scanGood x.2)) := by
  unfold scan
  exact scanF_spec _ r ei pi ch hslot (Nat.lt_succ_self _)

/-- C4 witness: the amended theorem at the reader over the buffer
1-comma with entry character 1: the scan accepts the digit, stops at
the comma and pushes it back. -/
theorem c4_scan_amended_witness :
    ∃ ei₁ r₁, scan (JsonTextReader.new ['1', ',']) 0 0 '1' = .ok (ei₁, r₁) ∧
      stream r₁ =
        (((0, '1') :: stream (JsonTextReader.new ['1', ','])).dropWhile
          (fun x => scanGood x.2)) ∧
      ei₁ = 0 + sumSizes (((0, '1') :: stream (JsonTextReader.new ['1', ','])).takeWhile
          (fun x => scanGood x.2)) :=
  c4_scan_amended (JsonTextReader.new ['1', ',']) 0 0 '1' rfl
